import Mathlib

/-!
Verification development for the jse-eval expression evaluator
(`src/index.ts`, class `ExpressionEval`).

The development shallowly embeds the evaluator:

* JavaScript runtime values are `Value` (numbers as `Int`; the non-finite
  numbers are collapsed into `Value.nan`, flagged at each definition where
  it matters; no claim below evaluates a non-finite number).
* The variable context is an association list threaded through evaluation
  (JavaScript mutates the context object in place; the embedding passes the
  updated list along instead).
* `eval` is indexed by a fuel parameter so that recursion is structural on
  `Nat`; the source recursion is structural on the (finite) AST, so on any
  input the source's result is `eval` at any fuel larger than the tree
  depth.  Running out of fuel yields the artificial error `"fuel exhausted"`,
  which no theorem below relies on.
* The synchronous/asynchronous duality (`evalSyncAsync`,
  `Promise.resolve(v).then(cb)` versus `cb(v)`, and
  `Promise.all(xs).then(op)` versus `op(xs)`) is value-transparent along a
  single chain: the resolved value of a promise chain equals the directly
  computed value.  The two modes genuinely diverge in two places.  First,
  in `evalObjectExpression` (src/index.ts lines 577-598) the SpreadElement
  branch merges entries immediately during the synchronous `map` phase
  (via the static, synchronous `ExpressionEval.eval`) while the Property
  branch assigns in a deferred `.then` continuation; `eval` takes the mode
  as a `Bool` and branches on it in the object-expression case to model
  this.  Second, SIBLING promise chains (array elements, call arguments,
  binary operands, deferred object properties) are created together and
  their continuations interleave on the microtask queue by chain depth, so
  when siblings mutate the context their effects can occur out of source
  order (in the source, `[f(x++), x++]` resolves to `[6, 5]` while the
  synchronous result is `[5, 6]`).  The model does NOT simulate the
  microtask queue: the asynchronous branch threads the context through
  siblings sequentially, which is exact precisely when scheduling cannot
  influence the outcome.  That region is captured by the `ModeAgnostic`
  class (no UpdateExpression anywhere, so evaluation never mutates the
  context, and every ObjectExpression is spreads followed by at most one
  property, so at most one deferred chain exists per object); every
  theorem asserting agreement between the two modes is restricted to it.
  Theorems about one node's local behaviour (blocklist, short-circuit,
  optional member/call, update) do not depend on sibling scheduling and
  hold for either mode.
* `src/utils.ts` and `src/types.ts` are absent from the sources; the
  functions the evaluator imports from them (`Utils.getValue`,
  `Utils.getKeyValue`, `Utils.getLiteralKeyValue`, the `literals` table)
  are modelled from the spec, each marked `Modelled from the spec:` in its
  doc comment.
-/

namespace JseEval

/-- Identifiers for the callable values of the model.  JavaScript closures
are arbitrary host functions; the model provides the one callable the
evaluator itself manufactures (`returnUndefined`, the `() => undefined` substituted
by `validateFnAndCall` for an optional nullish call) plus sample callables
used to populate test contexts. -/
inductive FnId where
  | returnUndefined
  | firstArg
  | double
deriving DecidableEq, Repr

/-- JavaScript runtime values ("Operand" in the spec).  Numbers are `Int`;
`nan` stands for the non-finite numbers (NaN and the infinities are not
distinguished; no claim below depends on them).  Objects and arrays are
by-value association lists / lists here, whereas JavaScript passes them by
reference: the claims below never depend on aliasing between two object
values, only on the single threaded context. -/
inductive Value where
  | undefined
  | null
  | bool (b : Bool)
  | num (n : Int)
  | nan
  | str (s : String)
  | obj (fields : List (String × Value))
  | arr (elems : List Value)
  | fn (f : FnId)
deriving Repr

/-- JavaScript truthiness: `undefined`, `null`, `false`, `0`, `NaN` and
`""` are falsy, everything else (objects, arrays, functions included) is
truthy. -/
def truthy : Value → Bool
  | .undefined => false
  | .null => false
  | .bool b => b
  | .num n => n != 0
  | .nan => false
  | .str s => s != ""
  | .obj _ => true
  | .arr _ => true
  | .fn _ => true

/-- `undefined` or `null`. -/
def isNullish : Value → Bool
  | .undefined => true
  | .null => true
  | _ => false

/-- JavaScript `ToNumber` restricted to the fragment the claims exercise:
numbers are themselves, `null` is `0`, booleans are `0`/`1`; `undefined`
and `nan` have no finite value (`none`, i.e. NaN).  String parsing and
object-to-primitive coercion are not modelled (`none`); no claim below
coerces a string or container to a number. -/
def toNumber : Value → Option Int
  | .num n => some n
  | .null => some 0
  | .bool b => some (if b then 1 else 0)
  | _ => none

/-- Stringification of scalar values, as JavaScript template/`String`
conversion produces.  Containers are handled by `jsToString`. -/
def jsToStringScalar : Value → String
  | .undefined => "undefined"
  | .null => "null"
  | .bool b => if b then "true" else "false"
  | .num n => toString n
  | .nan => "NaN"
  | .str s => s
  | .obj _ => "[object Object]"
  | .arr _ => ""
  | .fn _ => "function"

/-- JavaScript `ToString`.  Arrays join their elements with `","`
(one level deep: nested containers inside an array are stringified by
`jsToStringScalar`, a flagged shallow model — no claim stringifies a
nested container).  Objects give `"[object Object]"`; a function's source
text is modelled by the constant `"function"` (unused by the claims). -/
def jsToString : Value → String
  | .arr xs => String.intercalate "," (xs.map (fun v => if isNullish v then "" else jsToStringScalar v))
  | v => jsToStringScalar v

/-- Strict equality `===` on scalars.  JavaScript compares objects, arrays
and functions by reference identity, which a by-value model cannot express;
those comparisons are modelled as `false` (two independently produced
references are distinct).  No claim below applies `===`. -/
def strictEq : Value → Value → Bool
  | .undefined, .undefined => true
  | .null, .null => true
  | .bool a, .bool b => a == b
  | .num a, .num b => a == b
  | .str a, .str b => a == b
  | _, _ => false

/-- Loose equality `==` on the modelled fragment: `null == undefined`,
scalars compare after numeric coercion where JavaScript would coerce.
String/number cross-coercions and object coercions are not modelled (ruled
`false`); no claim below applies `==`. -/
def looseEq (a b : Value) : Bool :=
  match a, b with
  | .undefined, .null => true
  | .null, .undefined => true
  | .str x, .str y => x == y
  | .undefined, .undefined => true
  | .null, .null => true
  | _, _ =>
    match toNumber a, toNumber b with
    | some x, some y => x == y
    | _, _ => false

/-- Apply an integer operation after numeric coercion; a NaN operand gives
NaN, as in JavaScript arithmetic. -/
def numOp (g : Int → Int → Int) (a b : Value) : Value :=
  match toNumber a, toNumber b with
  | some x, some y => .num (g x y)
  | _, _ => .nan

/-- Numeric/string comparison for the relational operators: two strings compare
lexicographically, otherwise operands coerce to numbers and a NaN operand
makes the comparison false, as in JavaScript. -/
def cmpOp (gs : String → String → Bool) (gn : Int → Int → Bool) (a b : Value) : Value :=
  match a, b with
  | .str x, .str y => .bool (gs x y)
  | _, _ =>
    match toNumber a, toNumber b with
    | some x, some y => .bool (gn x y)
    | _, _ => .bool false

/-- Whether `+` concatenates: JavaScript concatenates when either operand
converts to a string primitive (strings themselves, and objects/arrays via
`toPrimitive`). -/
def isStringish : Value → Bool
  | .str _ => true
  | .obj _ => true
  | .arr _ => true
  | _ => false

/-- The `+` operator: number addition, else string concatenation when
either side is string-like, else numeric coercion (NaN-propagating). -/
def jsAdd (a b : Value) : Value :=
  match a, b with
  | .num x, .num y => .num (x + y)
  | _, _ =>
    if isStringish a || isStringish b then .str (jsToString a ++ jsToString b)
    else
      match toNumber a, toNumber b with
      | some x, some y => .num (x + y)
      | _, _ => .nan

/-- Evaluation options (src/index.ts `Options`, defaults at line 138).
Only the `caseSensitive` flag is modelled; the `scopes` / literal-table
extension flags of the spec's §3 Options configure scope-chain machinery
living in the absent `src/types.ts` and are outside the embedded fragment
(no claim mentions them). -/
structure Options where
  caseSensitive : Bool
deriving DecidableEq, Repr

/-- Source default options: `{ caseSensitive: true }` (line 138). -/
def defaultOptions : Options := ⟨true⟩

/-- The evaluation context: a mapping from names to values.  JavaScript
passes one mutable object; the embedding threads the list. -/
abbrev Ctx := List (String × Value)

/-- Lower-casing through the character list (the kernel-reducible
equivalent of `String.toLower`, which is compiled by well-founded
recursion over byte positions; only basic latin letters are folded, as in
the host function the model replaces). -/
def strLower (s : String) : String := ⟨s.data.map Char.toLower⟩

/-- Modelled from the spec: `Utils.getKeyValue` lives in the absent
`src/utils.ts`; per spec §4.1, `lookupAssignable(container, key, options)
-> (normalizedKey, existingValue)` resolves the key under case-insensitive
matching when enabled, returning the actually stored key, and nothing when
the key is absent. -/
def getKeyValue (fields : List (String × Value)) (name : String) (opts : Options) : Option (String × Value) :=
  if opts.caseSensitive then
    fields.find? (fun p => p.1 == name)
  else
    fields.find? (fun p => strLower p.1 == strLower name)

/-- Modelled from the spec: `Utils.getValue` lives in the absent
`src/utils.ts`; per spec §4.1, `lookup(context, name, options)` resolves a
name against the immediate context, case-insensitively when enabled, and
an absent name resolves to absence (`undefined`).  (The spec's scope-chain
search is enabled by an Options flag outside the modelled fragment.) -/
def getValue (fields : List (String × Value)) (name : String) (opts : Options) : Value :=
  match getKeyValue fields name opts with
  | some p => p.2
  | none => .undefined

/-- Modelled from the spec: property read on an arbitrary receiver value,
as `Utils.getValue(obj, key, options)` is applied to the evaluated member
object (src/index.ts line 410).  Objects resolve per `getValue`; reading a
property of `undefined`/`null` fails as host property access does; arrays
and strings expose `length` and indices; other primitives have no own
properties (prototype members are unreachable anyway: the blocklist rejects
`__proto__`/`prototype`/`constructor` first). -/
def getValueOf (target : Value) (key : String) (opts : Options) : Except String Value :=
  match target with
  | .obj fields => .ok (getValue fields key opts)
  | .undefined => .error ("Cannot read properties of undefined (reading \x27" ++ key ++ "\x27)")
  | .null => .error ("Cannot read properties of null (reading \x27" ++ key ++ "\x27)")
  | .arr xs =>
    if key == "length" then .ok (.num xs.length)
    else
      match key.toNat? with
      | some i => .ok (xs.getD i .undefined)
      | none => .ok .undefined
  | .str s =>
    if key == "length" then .ok (.num s.length)
    else
      match key.toNat? with
      | some i =>
        match s.toList.get? i with
        | some c => .ok (.str (String.singleton c))
        | none => .ok .undefined
      | none => .ok .undefined
  | _ => .ok .undefined

/-- Modelled from the spec: the `literals` table of the absent
`src/types.ts` — the "literal keyword table (e.g. boolean/null-like literal
names)" of spec §4.1, checked before context lookup only when case
sensitivity is disabled. -/
def literals : List (String × Value) :=
  [("true", .bool true), ("false", .bool false), ("null", .null)]

/-- Modelled from the spec: `Utils.getLiteralKeyValue` of the absent
`src/utils.ts` — looks a name up in the literal-keyword table
case-insensitively (it is only consulted in case-insensitive mode). -/
def getLiteralKeyValue (name : String) : Option (String × Value) :=
  literals.find? (fun p => strLower p.1 == strLower name)

/-!  ### The member-access blocklist

src/index.ts line 404: `/^__proto__|prototype|constructor$/.test(key)`.
The regular expression is an alternation of three branches — `^__proto__`,
`prototype`, and `constructor$` — and `test` succeeds when any branch
matches at any position of the key.  `RePat` is one branch (an optional
start anchor, a literal, an optional end anchor); `reTest` is the
existential search `test` performs. -/

/-- One branch of a regular-expression alternation consisting of a literal
with optional `^` / `$` anchors. -/
structure RePat where
  caret : Bool
  lit : String
  dollar : Bool

/-- Does the branch match `s` at character position `i`? -/
def patMatchesAt (p : RePat) (s : String) (i : Nat) : Bool :=
  (!p.caret || i == 0) &&
  p.lit.toList.isPrefixOf (s.toList.drop i) &&
  (!p.dollar || i + p.lit.toList.length == s.toList.length)

/-- `RegExp.prototype.test`: some branch matches at some position. -/
def reTest (alts : List RePat) (s : String) : Bool :=
  (List.range (s.toList.length + 1)).any (fun i => alts.any (fun p => patMatchesAt p s i))

/-- The three branches of `/^__proto__|prototype|constructor$/`. -/
def protoBlockPattern : List RePat :=
  [⟨true, "__proto__", false⟩, ⟨false, "prototype", false⟩, ⟨false, "constructor", true⟩]

/-- The member-access blocklist test of `evaluateMember`
(src/index.ts line 404). -/
def blockedKey (key : String) : Bool :=
  reTest protoBlockPattern key

/-- The Access-Denied error message the evaluator raises
(src/index.ts line 405). -/
def accessDeniedMsg (key : String) : String :=
  "Access to member \x22" ++ key ++ "\x22 disallowed."

/-!  ### Operator registries (src/index.ts `binops`, `unops`) -/

/-- The default binary/logical operator table (src/index.ts lines 91-113),
keyed exactly as the source.  Value-level semantics are modelled on the
fragment the claims exercise: 32-bit truncation of the bitwise/shift
operators, fractional division, `%` sign behaviour and string-to-number
coercion are not modelled (no claim evaluates them); `==`/`===` on
containers compare by reference in JavaScript and are modelled as `false`
(see `strictEq`). -/
def binops (op : String) : Option (Value → Value → Value) :=
  match op with
  | "||" => some (fun a b => if truthy a then a else b)
  | "&&" => some (fun a b => if truthy a then b else a)
  | "|" => some (numOp (fun x y => Int.lor x y))
  | "^" => some (numOp (fun x y => Int.xor x y))
  | "&" => some (numOp (fun x y => Int.land x y))
  | "==" => some (fun a b => .bool (looseEq a b))
  | "!=" => some (fun a b => .bool (!looseEq a b))
  | "===" => some (fun a b => .bool (strictEq a b))
  | "!==" => some (fun a b => .bool (!strictEq a b))
  | "<" => some (cmpOp (fun x y => x < y) (fun x y => x < y))
  | ">" => some (cmpOp (fun x y => y < x) (fun x y => y < x))
  | "<=" => some (cmpOp (fun x y => x ≤ y) (fun x y => x ≤ y))
  | ">=" => some (cmpOp (fun x y => y ≤ x) (fun x y => y ≤ x))
  | "<<" => some (numOp (fun x y => x * 2 ^ y.toNat))
  | ">>" => some (numOp (fun x y => Int.fdiv x (2 ^ y.toNat)))
  | ">>>" => some (numOp (fun x y => Int.fdiv x (2 ^ y.toNat)))
  | "+" => some jsAdd
  | "-" => some (numOp (fun x y => x - y))
  | "*" => some (numOp (fun x y => x * y))
  | "/" => some (numOp (fun x y => x / y))
  | "%" => some (numOp (fun x y => x % y))
  | _ => none

/-- The default unary operator table (src/index.ts lines 115-120).
`~` is `-x-1` (32-bit truncation not modelled, as above). -/
def unops (op : String) : Option (Value → Value) :=
  match op with
  | "-" => some (fun a => match toNumber a with | some n => .num (-n) | none => .nan)
  | "+" => some (fun a => match toNumber a with | some n => .num n | none => .nan)
  | "~" => some (fun a => match toNumber a with | some n => .num (-(n + 1)) | none => .nan)
  | "!" => some (fun a => .bool (!truthy a))
  | _ => none

/-!  ### The embedded AST

The embedding covers the node kinds the claims are about: Literal,
Identifier, ThisExpression, Binary/LogicalExpression (one evaluator in the
source table), UnaryExpression, ConditionalExpression, MemberExpression
(including the optional variant — the source maps `MemberExpression` and
`OptionalMemberExpression` to the same evaluator, the `optional` flag
carrying the behaviour), CallExpression, ArrayExpression, ObjectExpression
with Property / shorthand / SpreadElement members, Compound, and
UpdateExpression with an Identifier target (Member/Conditional update
targets and the Arrow/New/Template/Tagged/Await/Assignment kinds are
outside the embedded fragment; no claim needs them — in particular every
embedded expression is free of the await operator). -/

mutual

/-- An AST node. -/
inductive Expr where
  | lit (v : Value)
  | ident (nm : String)
  | thisE
  | binary (op : String) (l r : Expr)
  | unary (op : String) (arg : Expr)
  | cond (t c a : Expr)
  | member (objE : Expr) (pk : PKey) (opt : Bool)
  | call (callee : Expr) (args : List (Bool × Expr))
  | array (elems : List (Bool × Expr))
  | object (props : List OProp)
  | compound (body : List Expr)
  | update (inc : Bool) (pre : Bool) (target : String)

/-- A property key: a plain (non-computed) name, or a computed key
expression. -/
inductive PKey where
  | name (s : String)
  | computed (e : Expr)

/-- A member of an ObjectExpression: a SpreadElement, a regular Property,
or a shorthand Property (whose key identifier is also its value). -/
inductive OProp where
  | spread (arg : Expr)
  | prop (k : PKey) (value : Expr)
  | shorthand (nm : String)

end

/-- The elements of a Call/ArrayExpression argument list: the `Bool` is
the SpreadElement flag the source checks via `list[i].type ===
\x27SpreadElement\x27` (src/index.ts line 303). -/
abbrev Elems := List (Bool × Expr)

/-- The type of an evaluation outcome: an error (a thrown host `Error` /
rejected promise), or a value together with the updated context. -/
abbrev EvalResult := Except String (Value × Ctx)

/-- The type of the child-node evaluator the per-kind evaluators receive
(the source's `this.eval`). -/
abbrev SubEval := Expr → Ctx → EvalResult

/-- `evalLiteral` (src/index.ts line 389): the node's stored value. -/
def evalLiteral (v : Value) : Value := v

/-- `evalThisExpression` (line 416): the ambient context. -/
def evalThisExpression (ctx : Ctx) : Value := .obj ctx

/-- `evalIdentifier` (lines 363-387).  In case-sensitive mode, a plain
context lookup.  Otherwise: the name `this` (compared case-insensitively —
the source uses `localeCompare` with base sensitivity, which additionally
ignores diacritics; not modelled, no claim uses a diacritic) resolves to
the ambient context; then the literal-keyword table; then context lookup.
The scope-annotation block (lines 377-383) is driven by the `scopes`
option outside the modelled fragment. -/
def evalIdentifier (opts : Options) (ctx : Ctx) (nm : String) : Value :=
  if opts.caseSensitive then getValue ctx nm opts
  else if strLower nm == "this" then evalThisExpression ctx
  else
    match getLiteralKeyValue nm with
    | some kv => kv.2
    | none => getValue ctx nm opts

/-- `evaluateMember` (lines 397-414): evaluate the object, resolve the key
(a computed property is evaluated and stringified, a non-computed one is
the literal name), reject a blocklisted key with the Access-Denied error,
treat a falsy object of an optional member as the empty container
(`node.optional ? (object || \x7b\x7d) : object`), and resolve the value.
Returns the triple `[object, value, key]` of the source.  The per-scope
option merge (lines 408-409) is the identity here: scope annotations are
outside the modelled fragment. -/
def evaluateMember (f : SubEval) (opts : Options) (objE : Expr) (pk : PKey) (opt : Bool)
    (ctx : Ctx) : Except String ((Value × Value × String) × Ctx) := do
  let (objV, c1) ← f objE ctx
  let (key, c2) ←
    match pk with
    | .name s => pure (s, c1)
    | .computed pe => do
      let (kv, c2) ← f pe c1
      pure (jsToString kv, c2)
  if blockedKey key then
    .error (accessDeniedMsg key)
  else
    let target := if opt && !truthy objV then Value.obj [] else objV
    let v ← getValueOf target key opts
    .ok ((objV, v, key), c2)

/-- `evalBinaryExpression` (lines 314-329), which also serves
LogicalExpression nodes.  `||` and `&&` short-circuit on the left value's
truthiness; every other operator evaluates both operands and then applies
the registered binary function.  (In asynchronous mode the source collects
the two operand promises with `Promise.all`; the promises are created left
to right and the callback receives the two resolved values, so resolved
values and context threading agree with the synchronous path.)  A missing
operator entry is a thrown host `TypeError` in the source, modelled as an
error. -/
def evalBinaryExpression (f : SubEval) (op : String) (l r : Expr) (ctx : Ctx) : EvalResult :=
  if op == "||" then do
    let (lv, c1) ← f l ctx
    if truthy lv then .ok (lv, c1) else f r c1
  else if op == "&&" then do
    let (lv, c1) ← f l ctx
    if truthy lv then f r c1 else .ok (lv, c1)
  else do
    let (lv, c1) ← f l ctx
    let (rv, c2) ← f r c1
    match binops op with
    | some g => .ok (g lv rv, c2)
    | none => .error ("binary operator not found: " ++ op)

/-- `evalUnaryExpression` (lines 420-423). -/
def evalUnaryExpression (f : SubEval) (op : String) (a : Expr) (ctx : Ctx) : EvalResult := do
  let (av, c1) ← f a ctx
  match unops op with
  | some g => .ok (g av, c1)
  | none => .error ("unary operator not found: " ++ op)

/-- `evalConditionalExpression` (lines 357-361). -/
def evalConditionalExpression (f : SubEval) (t c a : Expr) (ctx : Ctx) : EvalResult := do
  let (tv, c1) ← f t ctx
  if truthy tv then f c c1 else f a c1

/-- First phase of `evalArray` (lines 299-312): evaluate every element
expression (a SpreadElement element evaluates its inner argument, via
`evalSpreadElement`, line 600), keeping the spread flags. -/
def evalElements (f : SubEval) : Elems → Ctx → Except String (List (Bool × Value) × Ctx)
  | [], ctx => .ok ([], ctx)
  | (sp, e) :: es, ctx => do
    let (v, c1) ← f e ctx
    let (vs, c2) ← evalElements f es c1
    .ok ((sp, v) :: vs, c2)

/-- Second phase of `evalArray` (`toFullArray`, lines 301-308): flatten
each spread element one level (`[...arr, ...v]` — arrays contribute their
elements, strings their characters, anything else is not iterable and the
host throws). -/
def toFullArray : List (Bool × Value) → Except String (List Value)
  | [] => .ok []
  | (false, v) :: rest => do
    let tail ← toFullArray rest
    .ok (v :: tail)
  | (true, v) :: rest => do
    let tail ← toFullArray rest
    match v with
    | .arr xs => .ok (xs ++ tail)
    | .str s => .ok (s.toList.map (fun c => Value.str (String.singleton c)) ++ tail)
    | _ => .error "value is not iterable"

/-- `evalArray` (lines 299-312): evaluate, then flatten.  (In asynchronous
mode the source runs `Promise.all` over the element promises, created in
order, before flattening: resolved values and context threading agree with
the synchronous path.) -/
def evalArray (f : SubEval) (es : Elems) (ctx : Ctx) : Except String (List Value × Ctx) := do
  let (pairs, c1) ← evalElements f es ctx
  let vals ← toFullArray pairs
  .ok (vals, c1)

/-- `evalArrayExpression` (lines 295-297). -/
def evalArrayExpression (f : SubEval) (es : Elems) (ctx : Ctx) : EvalResult := do
  let (vals, c1) ← evalArray f es ctx
  .ok (.arr vals, c1)

/-- `nodeFunctionName` (lines 661-666): the callee's identifier name, or
its property's identifier name for a non-computed member; otherwise the
source reaches `undefined`, which prints as `"undefined"` in the error
template. -/
def nodeFunctionName : Expr → String
  | .ident nm => nm
  | .member _ (.name s) _ => s
  | _ => "undefined"

/-- `validateFnAndCall` (lines 646-659): a function value passes through;
a non-function resolution of an optional-member callee that is falsy
(`!fn && caller && caller.optional`) is replaced by the callable
`() => undefined`; otherwise the Not-Callable error names the callee. -/
def validateFnAndCall (fnV : Value) (opt : Bool) (nm : String) : Except String FnId :=
  match fnV with
  | .fn fid => .ok fid
  | v =>
    if !truthy v && opt then .ok FnId.returnUndefined
    else .error ("\x27" ++ nm ++ "\x27 is not a function")

/-- Application of a model callable.  `returnUndefined` is the evaluator's own
`() => undefined`; the others are the sample context functions of the
model (`firstArg` returns its first argument, `double` doubles it).  The
receiver (`this`) a JavaScript call would pass is irrelevant to all of
them and not modelled. -/
def applyFn (fid : FnId) (args : List Value) : Except String Value :=
  match fid with
  | .returnUndefined => .ok .undefined
  | .firstArg => .ok (args.headD .undefined)
  | .double =>
    match args.headD .undefined with
    | .num n => .ok (.num (2 * n))
    | _ => .ok .nan

/-- `evalCall` (lines 343-355): resolve the callee to a callable.  A
member callee resolves through `evaluateMember`, and `validateFnAndCall`
receives the member node (whose `optional` flag enables the
nullish-to-`() => undefined` substitution); an identifier callee resolves
through a context lookup with no optional path; any other callee is
evaluated as an expression, again with no optional path. -/
def evalCall (f : SubEval) (opts : Options) (callee : Expr) (ctx : Ctx) :
    Except String (FnId × Ctx) :=
  match callee with
  | .member o pk opt => do
    let ((_objV, v, _k), c1) ← evaluateMember f opts o pk opt ctx
    let fid ← validateFnAndCall v opt (nodeFunctionName callee)
    .ok (fid, c1)
  | .ident nm => do
    let v := getValue ctx nm opts
    let fid ← validateFnAndCall v false nm
    .ok (fid, ctx)
  | _ => do
    let (v, c1) ← f callee ctx
    let fid ← validateFnAndCall v false (nodeFunctionName callee)
    .ok (fid, c1)

/-- `evalCallExpression` (lines 337-341): resolve the callee, evaluate the
argument list (through `evalArray`, spreads included), then apply.  The
receiver selection (`caller === node.callee ? this.context : caller`) is
irrelevant to the modelled callables and not tracked. -/
def evalCallExpression (f : SubEval) (opts : Options) (callee : Expr) (args : Elems)
    (ctx : Ctx) : EvalResult := do
  let (fid, c1) ← evalCall f opts callee ctx
  let (argVals, c2) ← evalArray f args c1
  let v ← applyFn fid argVals
  .ok (v, c2)

/-- `evalCompoundExpression` (lines 331-335): evaluate every statement in
order and return the last value (`undefined` for an empty body — the
source indexes `[-1]` synchronously and starts from `Promise.resolve()`
asynchronously, both yielding `undefined`; the asynchronous `reduce` chain
evaluates the statements in the same order as the synchronous `map`). -/
def evalSequence (f : SubEval) : List Expr → Ctx → Except String (List Value × Ctx)
  | [], ctx => .ok ([], ctx)
  | e :: es, ctx => do
    let (v, c1) ← f e ctx
    let (vs, c2) ← evalSequence f es c1
    .ok (v :: vs, c2)

/-- `evalCompoundExpression` (lines 331-335). -/
def evalCompoundExpression (f : SubEval) (body : List Expr) (ctx : Ctx) : EvalResult := do
  let (vs, c1) ← evalSequence f body ctx
  .ok (vs.getLastD .undefined, c1)

/-- Property assignment `obj[key] = val` on the result object: an existing
key keeps its position and is overwritten, a new key is appended — exactly
JavaScript's own key ordering. -/
def objUpsert (fields : List (String × Value)) (key : String) (v : Value) :
    List (String × Value) :=
  if fields.any (fun p => p.1 == key) then
    fields.map (fun p => if p.1 == key then (p.1, v) else p)
  else fields ++ [(key, v)]

/-- The own enumerable entries `Object.assign` copies from a spread value:
an object's fields, an array's indexed elements, a string's indexed
characters; other primitives contribute nothing. -/
def entriesOf : Value → List (String × Value)
  | .obj fields => fields
  | .arr xs => xs.enum.map (fun p => (toString p.1, p.2))
  | .str s => s.toList.enum.map (fun p => (toString p.1, Value.str (String.singleton p.2)))
  | _ => []

/-- `Object.assign(obj, v)` (line 582): merge every entry of `v` into the
result object, in entry order. -/
def objAssign (fields : List (String × Value)) (entries : List (String × Value)) :
    List (String × Value) :=
  entries.foldl (fun acc kv => objUpsert acc kv.1 kv.2) fields

/-- Resolve a property key (lines 584-587): a non-computed key is the
identifier's name, a computed key is evaluated and stringified. -/
def objectKey (f : SubEval) (k : PKey) (ctx : Ctx) : Except String (String × Ctx) :=
  match k with
  | .name s => .ok (s, ctx)
  | .computed e => do
    let (kv, c1) ← f e ctx
    .ok (jsToString kv, c1)

/-- The synchronous pass of `evalObjectExpression` (lines 577-598): the
`map` body runs to completion for each property in declaration order —
a SpreadElement merges the entries of its argument (evaluated by the
static, synchronous `ExpressionEval.eval`, hence `fStatic`); a Property
resolves its key and value and assigns; a shorthand property assigns its
identifier's name the identifier's value (`prop.shorthand ? prop.key :
prop.value`). -/
def objectSyncPass (fStatic f : SubEval) :
    List OProp → List (String × Value) → Ctx → Except String (List (String × Value) × Ctx)
  | [], obj, ctx => .ok (obj, ctx)
  | .spread a :: ps, obj, ctx => do
    let (v, c1) ← fStatic a ctx
    objectSyncPass fStatic f ps (objAssign obj (entriesOf v)) c1
  | .prop k ve :: ps, obj, ctx => do
    let (key, c1) ← objectKey f k ctx
    let (v, c2) ← f ve c1
    objectSyncPass fStatic f ps (objUpsert obj key v) c2
  | .shorthand nm :: ps, obj, ctx => do
    let (v, c1) ← f (Expr.ident nm) ctx
    objectSyncPass fStatic f ps (objUpsert obj nm v) c1

/-- The map-phase pass of the asynchronous `evalObjectExpression`: only
the SpreadElement branch runs synchronously inside `map` (line 582, `//
always synchronous in this case`, via the static synchronous
`ExpressionEval.eval`); Property branches only create promises. -/
def objectSpreadPass (fStatic : SubEval) :
    List OProp → List (String × Value) → Ctx → Except String (List (String × Value) × Ctx)
  | [], obj, ctx => .ok (obj, ctx)
  | .spread a :: ps, obj, ctx => do
    let (v, c1) ← fStatic a ctx
    objectSpreadPass fStatic ps (objAssign obj (entriesOf v)) c1
  | _ :: ps, obj, ctx => objectSpreadPass fStatic ps obj ctx

/-- The deferred pass of the asynchronous `evalObjectExpression`: the
Property continuations (key resolution, value evaluation, assignment) run
as microtasks after the synchronous `map` completes — hence after every
spread merge, which is the unconditional fact the spread/property theorems
below use; spread elements were already consumed by the map phase.  The
model sequences the deferred properties in declaration order with a fully
threaded context, whereas in the source the property chains interleave on
the microtask queue by chain depth, so with TWO or more deferred
properties of unequal depth both the effect order and the key insertion
order can differ from this pass (e.g. `{a: f(x++), b: x++}` assigns `b`
before `a` in the source).  Theorems that assert agreement between the
modes therefore only ever reach this pass with at most one deferred
property (the `ModeAgnostic` object shapes). -/
def objectDeferredPass (f : SubEval) :
    List OProp → List (String × Value) → Ctx → Except String (List (String × Value) × Ctx)
  | [], obj, ctx => .ok (obj, ctx)
  | .spread _ :: ps, obj, ctx => objectDeferredPass f ps obj ctx
  | .prop k ve :: ps, obj, ctx => do
    let (key, c1) ← objectKey f k ctx
    let (v, c2) ← f ve c1
    objectDeferredPass f ps (objUpsert obj key v) c2
  | .shorthand nm :: ps, obj, ctx => do
    let (v, c1) ← f (Expr.ident nm) ctx
    objectDeferredPass f ps (objUpsert obj nm v) c1

/-- `evalObjectExpression` (lines 577-598).  Synchronously, one pass in
declaration order.  Asynchronously, the spread merges all happen during
the synchronous `map` phase and every deferred property assignment happens
after them (`Promise.all(arr).then(() => obj)`). -/
def evalObjectExpression (m : Bool) (fStatic f : SubEval) (props : List OProp)
    (ctx : Ctx) : EvalResult :=
  if m then do
    let (o1, c1) ← objectSpreadPass fStatic props [] ctx
    let (o2, c2) ← objectDeferredPass f props o1 c1
    .ok (.obj o2, c2)
  else do
    let (o, c) ← objectSyncPass fStatic f props [] ctx
    .ok (.obj o, c)

/-- Raw property read `destObj[destKey]` (exact key — normalization
already happened in `getContextAndKey`). -/
def rawGet (fields : List (String × Value)) (key : String) : Value :=
  match fields.find? (fun p => p.1 == key) with
  | some p => p.2
  | none => .undefined

/-- Raw property write `destObj[destKey] = v`. -/
def rawSet (fields : List (String × Value)) (key : String) (v : Value) :
    List (String × Value) :=
  objUpsert fields key v

/-- `evalUpdateOperation` (lines 534-543): `++`/`--` with the
prefix/postfix flag.  JavaScript coerces the old value to a number, stores
old±1, and returns the new value (prefix) or the coerced old value
(postfix); when the coercion has no finite value both the stored and the
returned value are NaN. -/
def evalUpdateOperation (inc : Bool) (pre : Bool) (ctx : Ctx) (key : String) :
    Value × Ctx :=
  let old := rawGet ctx key
  match toNumber old with
  | some n =>
    let nv : Int := if inc then n + 1 else n - 1
    ((if pre then Value.num nv else Value.num n), rawSet ctx key (.num nv))
  | none => (.nan, rawSet ctx key .nan)

/-- `evalUpdateExpression` (lines 522-528) for an Identifier target:
`getContextAndKey` (lines 555-558) normalizes the name through
`Utils.getKeyValue` (keeping the given name when absent) and the update
operation runs on the context slot.  Member and Conditional update targets
are outside the embedded fragment. -/
def evalUpdateExpression (opts : Options) (inc : Bool) (pre : Bool) (nm : String)
    (ctx : Ctx) : EvalResult :=
  let key :=
    match getKeyValue ctx nm opts with
    | some kv => kv.1
    | none => nm
  .ok (evalUpdateOperation inc pre ctx key)

/-- The evaluation engine (`ExpressionEval.prototype.eval` with the
default evaluator table of src/index.ts lines 39-61 inlined; no
conditional evaluators are registered by default — the dispatch layer
itself is modelled separately below as `dispatchEval`).  `fuel` bounds the
recursion depth (see the header note); `m` is `isAsync`.  The
`_value`/`_scope` node annotations (post-hoc inspection slots) are not
modelled.  The recursive child evaluator is `eval opts fuel m`; the object
case additionally receives the static synchronous evaluator
`eval opts fuel false`, because the SpreadElement branch of
`evalObjectExpression` calls the static `ExpressionEval.eval` (line 582)
regardless of mode.  Fidelity of the asynchronous branch: it does not
simulate the microtask queue, and threads the context through sibling
evaluations sequentially in source order; in the source, sibling chains
interleave by chain depth, so on expressions whose siblings mutate the
context the two can disagree (header note).  Mode-agreement theorems are
therefore restricted to `ModeAgnostic`, where no mutation occurs and each
object defers at most one property, making the sequential threading
exact; single-node theorems quantified over `m` use only the chain-local
value plumbing, which is exact in both modes. -/
def eval (opts : Options) : Nat → Bool → Expr → Ctx → EvalResult
  | 0 => fun _ _ _ => .error "fuel exhausted"
  | fuel + 1 => fun m e ctx =>
    let f : SubEval := eval opts fuel m
    let fStatic : SubEval := eval opts fuel false
    match e with
    | .lit v => .ok (evalLiteral v, ctx)
    | .ident nm => .ok (evalIdentifier opts ctx nm, ctx)
    | .thisE => .ok (evalThisExpression ctx, ctx)
    | .binary op l r => evalBinaryExpression f op l r ctx
    | .unary op a => evalUnaryExpression f op a ctx
    | .cond t c a => evalConditionalExpression f t c a ctx
    | .member o pk opt => do
      let ((_objV, v, _k), c1) ← evaluateMember f opts o pk opt ctx
      .ok (v, c1)
    | .call callee args => evalCallExpression f opts callee args ctx
    | .array es => evalArrayExpression f es ctx
    | .object props => evalObjectExpression m fStatic f props ctx
    | .compound body => evalCompoundExpression f body ctx
    | .update inc pre nm => evalUpdateExpression opts inc pre nm ctx

/-!  ### Evaluator dispatch and the conditional-evaluator registry

`ExpressionEval.prototype.eval` (src/index.ts lines 244-270) first walks
the registered conditional evaluators of `node.type` in order, using the
first whose predicate returns true; otherwise it uses the fixed table
entry for the kind; if none exists it throws
`unknown node type: ${JSON.stringify(node, null, 2)}`.
`addConditionalEvaluator` (lines 178-185) pushes onto the kind's list,
creating it when absent.  The model abstracts over the node, context and
result types; the `(node as any)._value = v` annotation and the
`evalSyncAsync` wrapping around the chosen evaluator's result are
value-transparent and not modelled. -/

/-- A registered conditional evaluator: a predicate and the evaluator it
guards (src/index.ts `conditionalEvaluator`, lines 25-26). -/
structure CondEval (N C R : Type) where
  predicate : N → C → Bool
  evaluator : N → C → R

/-- The conditional-evaluator registry: the ordered list registered for
each node kind (`ExpressionEval.conditionalEvaluators`, line 63; an
unregistered kind has the empty list, as the source's absent entry). -/
abbrev CondRegistry (N C R : Type) := String → List (CondEval N C R)

/-- `addConditionalEvaluator` (lines 178-185): append to the kind's list
(creating it when absent), leaving every other kind's list unchanged. -/
def addConditionalEvaluator {N C R : Type} (reg : CondRegistry N C R) (ty : String)
    (p : N → C → Bool) (ev : N → C → R) : CondRegistry N C R :=
  fun t => if t == ty then reg t ++ [⟨p, ev⟩] else reg t

/-- The dispatch of `eval` (lines 244-270): first predicate match wins, in
registration order; otherwise the fixed table entry; otherwise the
Unknown-Node-Kind error carrying the node's serialized form
(`JSON.stringify`, abstracted as `serialize`). -/
def dispatchEval {N C R : Type} (condReg : CondRegistry N C R)
    (table : String → Option (N → C → R)) (typeOf : N → String)
    (serialize : N → String) (node : N) (ctx : C) : Except String R :=
  match (condReg (typeOf node)).find? (fun ce => ce.predicate node ctx) with
  | some ce => .ok (ce.evaluator node ctx)
  | none =>
    match table (typeOf node) with
    | some ev => .ok (ev node ctx)
    | none => .error ("unknown node type: " ++ serialize node)

/-- `Except` bind on a success, for rewriting evaluator chains. -/
theorem exbind_ok {α β : Type} (a : α) (g : α → Except String β) :
    (Except.ok a >>= g) = g a := rfl

/-- `Except` bind on an error. -/
theorem exbind_error {α β : Type} (msg : String) (g : α → Except String β) :
    ((Except.error msg : Except String α) >>= g) = .error msg := rfl

/-- A nullish value is falsy. -/
theorem truthy_eq_false_of_isNullish {v : Value} (h : isNullish v = true) :
    truthy v = false := by
  cases v <;> simp_all [isNullish, truthy]

/-- A key that starts with `__proto__` matches the blocklist pattern (the
`^__proto__` branch at position 0). -/
theorem blockedKey_of_proto {key : String} (h : "__proto__".toList <+: key.toList) :
    blockedKey key = true := by
  unfold blockedKey reTest
  rw [List.any_eq_true]
  refine ⟨0, List.mem_range.mpr (Nat.succ_pos _), ?_⟩
  rw [List.any_eq_true]
  refine ⟨⟨true, "__proto__", false⟩, by simp [protoBlockPattern], ?_⟩
  simp only [patMatchesAt, List.drop_zero, Bool.not_true, Bool.not_false, Bool.false_or,
    Bool.true_or, Bool.and_true, beq_self_eq_true, Bool.true_and]
  exact List.isPrefixOf_iff_prefix.mpr h

/-- A key containing `prototype` anywhere matches the blocklist pattern
(the unanchored `prototype` branch). -/
theorem blockedKey_of_proto_mid {key : String} (h : "prototype".toList <:+: key.toList) :
    blockedKey key = true := by
  obtain ⟨s, t, hst⟩ := h
  have hlen := congrArg List.length hst
  simp only [List.length_append] at hlen
  unfold blockedKey reTest
  rw [List.any_eq_true]
  refine ⟨s.length, List.mem_range.mpr (by omega), ?_⟩
  rw [List.any_eq_true]
  refine ⟨⟨false, "prototype", false⟩, by simp [protoBlockPattern], ?_⟩
  simp only [patMatchesAt, Bool.not_false, Bool.true_or, Bool.and_true, Bool.true_and]
  rw [ List.isPrefixOf_iff_prefix]
  rw [← hst, List.append_assoc, List.drop_left]
  exact List.prefix_append _ _

/-- A key ending in `constructor` matches the blocklist pattern (the
`constructor$` branch at the final position). -/
theorem blockedKey_of_ctor_end {key : String} (h : "constructor".toList <:+ key.toList) :
    blockedKey key = true := by
  obtain ⟨s, hst⟩ := h
  have hlen := congrArg List.length hst
  simp only [List.length_append] at hlen
  unfold blockedKey reTest
  rw [List.any_eq_true]
  refine ⟨s.length, List.mem_range.mpr (by omega), ?_⟩
  rw [List.any_eq_true]
  refine ⟨⟨false, "constructor", true⟩, by simp [protoBlockPattern], ?_⟩
  simp only [patMatchesAt, Bool.not_false, Bool.not_true, Bool.true_or, Bool.false_or,
    Bool.true_and, Bool.and_true]
  rw [Bool.and_eq_true]
  constructor
  · rw [ List.isPrefixOf_iff_prefix]
    rw [← hst, List.drop_left]
  · rw [beq_iff_eq]
    omega

/-- `pure` on `Except` is `ok`, for rewriting evaluator chains. -/
theorem pure_eq_ok {α : Type} (a : α) : (pure a : Except String α) = Except.ok a := rfl

/-- One evaluation step: a member node (fuel `fuel + 1`) runs
`evaluateMember` with the child evaluator at fuel `fuel` and projects the
value component. -/
theorem eval_member_step (opts : Options) (fuel : Nat) (m : Bool) (objE : Expr)
    (pk : PKey) (opt : Bool) (ctx : Ctx) :
    eval opts (fuel + 1) m (.member objE pk opt) ctx
      = (do
          let ((_objV, v, _k), c1) ← evaluateMember (eval opts fuel m) opts objE pk opt ctx
          Except.ok (v, c1)) := rfl

/-- One evaluation step for a binary/logical node. -/
theorem eval_binary_step (opts : Options) (fuel : Nat) (m : Bool) (op : String)
    (l r : Expr) (ctx : Ctx) :
    eval opts (fuel + 1) m (.binary op l r) ctx
      = evalBinaryExpression (eval opts fuel m) op l r ctx := rfl

/-- One evaluation step for a call node. -/
theorem eval_call_step (opts : Options) (fuel : Nat) (m : Bool) (callee : Expr)
    (args : Elems) (ctx : Ctx) :
    eval opts (fuel + 1) m (.call callee args) ctx
      = evalCallExpression (eval opts fuel m) opts callee args ctx := rfl

/-- One evaluation step for an update node. -/
theorem eval_update_step (opts : Options) (fuel : Nat) (m : Bool) (inc pre : Bool)
    (nm : String) (ctx : Ctx) :
    eval opts (fuel + 1) m (.update inc pre nm) ctx
      = evalUpdateExpression opts inc pre nm ctx := rfl

/-- After `objUpsert fields key v`, reading `key` gives `v`. -/
theorem rawGet_objUpsert (fields : List (String × Value)) (key : String) (v : Value) :
    rawGet (objUpsert fields key v) key = v := by
  unfold objUpsert
  by_cases hmem : (fields.any fun p => p.1 == key) = true
  · rw [if_pos hmem]
    induction fields with
    | nil => simp at hmem
    | cons p ps ih =>
      rw [List.map_cons]
      by_cases hp : (p.1 == key) = true
      · rw [if_pos hp]
        unfold rawGet
        rw [@List.find?_cons_of_pos _ (fun q => q.1 == key) (p.1, v) _ hp]
      · rw [if_neg hp]
        rw [List.any_cons, Bool.or_eq_true] at hmem
        rcases hmem with hmem | hmem
        · exact absurd hmem hp
        · unfold rawGet
          rw [@List.find?_cons_of_neg _ (fun q => q.1 == key) p _ hp]
          exact ih hmem
  · rw [if_neg hmem]
    unfold rawGet
    rw [List.find?_append]
    have hnone : fields.find? (fun p => p.1 == key) = none := by
      rw [List.find?_eq_none]
      intro x hx hpx
      exact hmem (List.any_eq_true.mpr ⟨x, hx, hpx⟩)
    rw [hnone]
    simp [List.find?]

/-- Claim C1: evaluating a MemberExpression (or OptionalMemberExpression —
same evaluator, `opt` flag) whose resolved property key is `__proto__`,
`prototype` or `constructor` fails with the Access-Denied error, for every
receiver (any object expression that evaluates, any resulting value), in
both synchronous and asynchronous mode, under both case-sensitivity
settings, for the non-computed and the computed (string-literal) key
forms. -/
theorem blocklist_always_denies
    (opts : Options) (m : Bool) (fuel : Nat) (objE : Expr) (ctx c1 : Ctx) (v : Value)
    (opt : Bool) (key : String)
    (hkey : key = "__proto__" ∨ key = "prototype" ∨ key = "constructor")
    (hobj : eval opts (fuel + 1) m objE ctx = .ok (v, c1)) :
    eval opts (fuel + 1 + 1) m (.member objE (.name key) opt) ctx = .error (accessDeniedMsg key)
    ∧ eval opts (fuel + 1 + 1) m (.member objE (.computed (.lit (.str key))) opt) ctx
        = .error (accessDeniedMsg key) := by
  have hb : blockedKey key = true := by
    rcases hkey with h | h | h <;> subst h <;> decide
  constructor
  · rw [eval_member_step]
    unfold evaluateMember
    rw [hobj, exbind_ok]
    simp only [pure_eq_ok, exbind_ok, hb, if_true]
    rfl
  · rw [eval_member_step]
    unfold evaluateMember
    rw [hobj, exbind_ok]
    show (do
      let (key2, c2) ← (do
        let (kv, c2) ← eval opts (fuel + 1) m (.lit (.str key)) c1
        pure (jsToString kv, c2))
      if blockedKey key2 then Except.error (accessDeniedMsg key2)
      else
        let target := if opt && !truthy v then Value.obj [] else v
        do
          let vv ← getValueOf target key2 opts
          Except.ok ((v, vv, key2), c2)) >>= _ = _
    rw [show eval opts (fuel + 1) m (.lit (.str key)) c1 = .ok (.str key, c1) from rfl]
    simp only [pure_eq_ok, exbind_ok, jsToString, jsToStringScalar, hb, if_true]
    rfl

/-- Witness for C1: the hypotheses hold at a concrete input (the literal
empty object as receiver, key `__proto__`), and the conclusion follows by
the theorem. -/
theorem blocklist_always_denies_witness :
    eval defaultOptions 1 false (.lit (.obj [])) [] = .ok (.obj [], [])
    ∧ eval defaultOptions 2 false (.member (.lit (.obj [])) (.name "__proto__") false) []
        = .error (accessDeniedMsg "__proto__") :=
  ⟨rfl, (blocklist_always_denies defaultOptions false 0 (.lit (.obj [])) [] [] (.obj []) false
      "__proto__" (Or.inl rfl) rfl).1⟩

/-- Claim C5: the blocklist test is the unanchored alternation
`/^__proto__|prototype|constructor$/`, so member access is denied for
every key that begins with `__proto__`, contains `prototype` anywhere, or
ends with `constructor` — in particular `myprototypes` is denied — while
`constructors` (which merely begins with `constructor`) is allowed and
resolves normally. -/
theorem blocklist_unanchored_alternation :
    (∀ (opts : Options) (m : Bool) (fuel : Nat) (objE : Expr) (ctx c1 : Ctx) (v : Value)
        (opt : Bool) (key : String),
      eval opts (fuel + 1) m objE ctx = .ok (v, c1) →
      ("__proto__".toList <+: key.toList ∨ "prototype".toList <:+: key.toList ∨
        "constructor".toList <:+ key.toList) →
      eval opts (fuel + 1 + 1) m (.member objE (.name key) opt) ctx
        = .error (accessDeniedMsg key))
    ∧ (∀ (m cs : Bool),
        eval ⟨cs⟩ 2 m
          (.member (.lit (.obj [("myprototypes", .num 1)])) (.name "myprototypes") false) []
          = .error (accessDeniedMsg "myprototypes"))
    ∧ (∀ (m cs : Bool),
        eval ⟨cs⟩ 2 m
          (.member (.lit (.obj [("constructors", .num 7)])) (.name "constructors") false) []
          = .ok (.num 7, [])) := by
  refine ⟨?_, ?_, ?_⟩
  · intro opts m fuel objE ctx c1 v opt key hobj hkey
    have hb : blockedKey key = true := by
      rcases hkey with h | h | h
      · exact blockedKey_of_proto h
      · exact blockedKey_of_proto_mid h
      · exact blockedKey_of_ctor_end h
    rw [eval_member_step]
    unfold evaluateMember
    rw [hobj, exbind_ok]
    simp only [pure_eq_ok, exbind_ok, hb, if_true]
    rfl
  · intro m cs
    cases m <;> cases cs <;> rfl
  · intro m cs
    cases m <;> cases cs <;> rfl

/-- Witness for C5: the general denial clause applied at the concrete key
`myprototypes` (which contains `prototype`) over the literal empty object. -/
theorem blocklist_unanchored_alternation_witness :
    eval defaultOptions 1 false (.lit (.obj [])) [] = .ok (.obj [], [])
    ∧ "prototype".toList <:+: "myprototypes".toList
    ∧ eval defaultOptions 2 false (.member (.lit (.obj [])) (.name "myprototypes") false) []
        = .error (accessDeniedMsg "myprototypes") :=
  ⟨rfl, by decide,
    blocklist_unanchored_alternation.1 defaultOptions false 0 (.lit (.obj [])) [] []
      (.obj []) false "myprototypes" rfl (Or.inr (Or.inl (by decide)))⟩

/-- Claim C7: an optional MemberExpression whose object evaluates to
absence or `null` treats the object as an empty container, so the lookup
produces absence instead of failing; concretely, `obj?.missing?.x` with
`obj` bound to the empty object evaluates to absence in both modes and
under both case-sensitivity settings. -/
theorem optional_member_nullish_absence :
    (∀ (opts : Options) (m : Bool) (fuel : Nat) (objE : Expr) (ctx c1 : Ctx) (v : Value)
        (key : String),
      eval opts (fuel + 1) m objE ctx = .ok (v, c1) →
      isNullish v = true →
      blockedKey key = false →
      eval opts (fuel + 1 + 1) m (.member objE (.name key) true) ctx = .ok (.undefined, c1))
    ∧ (∀ (m cs : Bool),
        eval ⟨cs⟩ 3 m
          (.member (.member (.ident "obj") (.name "missing") true) (.name "x") true)
          [("obj", .obj [])]
          = .ok (.undefined, [("obj", .obj [])])) := by
  constructor
  · intro opts m fuel objE ctx c1 v key hobj hnull hk
    have ht : truthy v = false := truthy_eq_false_of_isNullish hnull
    rw [eval_member_step]
    unfold evaluateMember
    rw [hobj, exbind_ok]
    simp only [pure_eq_ok, exbind_ok, hk, Bool.false_eq_true, if_false, ht,
      Bool.not_false, Bool.and_true, if_true]
    show (do
      let vv ← getValueOf (Value.obj []) key opts
      Except.ok ((v, vv, key), c1)) >>= _ = _
    have : getValueOf (Value.obj []) key opts = .ok .undefined := by
      show Except.ok (getValue [] key opts) = _
      unfold getValue getKeyValue
      have h0 : (if opts.caseSensitive = true then
            List.find? (fun p => p.1 == key) ([] : List (String × Value))
          else List.find? (fun p => strLower p.1 == strLower key) []) = none := by
        split <;> rfl
      rw [h0]
    rw [this, exbind_ok, exbind_ok]
  · intro m cs
    cases m <;> cases cs <;> rfl

/-- Witness for C7: the general clause applied to a literal `undefined`
object with key `missing`. -/
theorem optional_member_nullish_absence_witness :
    eval defaultOptions 1 false (.lit .undefined) [] = .ok (.undefined, [])
    ∧ isNullish .undefined = true
    ∧ blockedKey "missing" = false
    ∧ eval defaultOptions 2 false (.member (.lit .undefined) (.name "missing") true) []
        = .ok (.undefined, []) :=
  ⟨rfl, rfl, by decide,
    optional_member_nullish_absence.1 defaultOptions false 0 (.lit .undefined) [] [] .undefined
      "missing" rfl rfl (by decide)⟩

/-- Claim C10: an UpdateExpression whose resolved target slot holds a
number `n` returns `n+1` (prefix `++`) or `n` (postfix `++`) and leaves
the slot holding `n+1`, symmetrically with `n-1` for `--`; concretely,
prefix `++x` on `{x:5}` returns `6` and leaves `x=6`, and postfix `x++`
from the same state returns `5` and leaves `x=6`. -/
theorem update_expression_semantics :
    (∀ (opts : Options) (m : Bool) (fuel : Nat) (ctx : Ctx) (nm k : String) (v0 : Value)
        (n : Int) (pre : Bool),
      getKeyValue ctx nm opts = some (k, v0) →
      rawGet ctx k = .num n →
      (eval opts (fuel + 1) m (.update true pre nm) ctx
          = .ok ((if pre then Value.num (n + 1) else Value.num n), rawSet ctx k (.num (n + 1)))
        ∧ eval opts (fuel + 1) m (.update false pre nm) ctx
          = .ok ((if pre then Value.num (n - 1) else Value.num n), rawSet ctx k (.num (n - 1)))
        ∧ rawGet (rawSet ctx k (.num (n + 1))) k = .num (n + 1)
        ∧ rawGet (rawSet ctx k (.num (n - 1))) k = .num (n - 1)))
    ∧ (∀ m : Bool,
        eval defaultOptions 1 m (.update true true "x") [("x", .num 5)]
            = .ok (.num 6, [("x", .num 6)])
        ∧ eval defaultOptions 1 m (.update true false "x") [("x", .num 5)]
            = .ok (.num 5, [("x", .num 6)])) := by
  constructor
  · intro opts m fuel ctx nm k v0 n pre hkv hraw
    refine ⟨?_, ?_, rawGet_objUpsert ctx k _, rawGet_objUpsert ctx k _⟩
    · rw [eval_update_step]
      unfold evalUpdateExpression
      rw [hkv]
      show Except.ok (evalUpdateOperation true pre ctx k) = _
      unfold evalUpdateOperation
      simp [hraw, toNumber]
    · rw [eval_update_step]
      unfold evalUpdateExpression
      rw [hkv]
      show Except.ok (evalUpdateOperation false pre ctx k) = _
      unfold evalUpdateOperation
      simp [hraw, toNumber]
  · intro m
    cases m <;> exact ⟨rfl, rfl⟩

/-- Witness for C10: the general clause applied to context `{x:5}` with
prefix increment. -/
theorem update_expression_semantics_witness :
    getKeyValue [("x", .num 5)] "x" defaultOptions = some ("x", .num 5)
    ∧ rawGet [("x", .num 5)] "x" = .num 5
    ∧ eval defaultOptions 1 false (.update true true "x") [("x", .num 5)]
        = .ok (.num 6, rawSet [("x", .num 5)] "x" (.num 6)) :=
  ⟨rfl, rfl,
    ((update_expression_semantics.1 defaultOptions false 0 [("x", .num 5)] "x" "x"
      (.num 5) 5 true rfl rfl).1 : _)⟩

/-- Claim C4: `&&` with a falsy left operand returns the left value
without evaluating the right operand (the right operand's errors and
effects never occur), symmetrically `||` with a truthy left operand; every
other binary/logical operator evaluates both operands before applying the
registered binary function (so an error in the right operand propagates,
and on success the registered function is applied to the two values). -/
theorem binary_short_circuit :
    (∀ (opts : Options) (m : Bool) (fuel : Nat) (l r : Expr) (ctx c1 : Ctx) (lv : Value),
      eval opts fuel m l ctx = .ok (lv, c1) → truthy lv = false →
      eval opts (fuel + 1) m (.binary "&&" l r) ctx = .ok (lv, c1))
    ∧ (∀ (opts : Options) (m : Bool) (fuel : Nat) (l r : Expr) (ctx c1 : Ctx) (lv : Value),
      eval opts fuel m l ctx = .ok (lv, c1) → truthy lv = true →
      eval opts (fuel + 1) m (.binary "||" l r) ctx = .ok (lv, c1))
    ∧ (∀ (opts : Options) (m : Bool) (fuel : Nat) (op : String) (l r : Expr) (ctx c1 : Ctx)
        (lv : Value) (msg : String),
      op ≠ "&&" → op ≠ "||" →
      eval opts fuel m l ctx = .ok (lv, c1) →
      eval opts fuel m r c1 = .error msg →
      eval opts (fuel + 1) m (.binary op l r) ctx = .error msg)
    ∧ (∀ (opts : Options) (m : Bool) (fuel : Nat) (op : String) (l r : Expr) (ctx c1 c2 : Ctx)
        (lv rv : Value) (g : Value → Value → Value),
      op ≠ "&&" → op ≠ "||" →
      eval opts fuel m l ctx = .ok (lv, c1) →
      eval opts fuel m r c1 = .ok (rv, c2) →
      binops op = some g →
      eval opts (fuel + 1) m (.binary op l r) ctx = .ok (g lv rv, c2)) := by
  refine ⟨?_, ?_, ?_, ?_⟩
  · intro opts m fuel l r ctx c1 lv hl ht
    rw [eval_binary_step]
    unfold evalBinaryExpression
    simp only [show (("&&" == "||") = false) from rfl, show (("&&" == "&&") = true) from rfl,
      Bool.false_eq_true, if_false, if_true]
    rw [hl, exbind_ok]
    simp only [ht, Bool.false_eq_true, if_false]
  · intro opts m fuel l r ctx c1 lv hl ht
    rw [eval_binary_step]
    unfold evalBinaryExpression
    simp only [show (("||" == "||") = true) from rfl, if_true]
    rw [hl, exbind_ok]
    simp only [ht, if_true]
  · intro opts m fuel op l r ctx c1 lv msg hop1 hop2 hl hr
    rw [eval_binary_step]
    unfold evalBinaryExpression
    have e1 : (op == "||") = false := beq_eq_false_iff_ne.mpr hop2
    have e2 : (op == "&&") = false := beq_eq_false_iff_ne.mpr hop1
    simp only [e1, e2, Bool.false_eq_true, if_false]
    rw [hl, exbind_ok, hr, exbind_error]
  · intro opts m fuel op l r ctx c1 c2 lv rv g hop1 hop2 hl hr hg
    rw [eval_binary_step]
    unfold evalBinaryExpression
    have e1 : (op == "||") = false := beq_eq_false_iff_ne.mpr hop2
    have e2 : (op == "&&") = false := beq_eq_false_iff_ne.mpr hop1
    simp only [e1, e2, Bool.false_eq_true, if_false]
    rw [hl, exbind_ok, hr, exbind_ok, hg]

/-- Witness for C4: the short-circuit clause applied to left operand
`false` and a right operand whose evaluation would fail (a blocklisted
member access): the conjunction still succeeds with the left value. -/
theorem binary_short_circuit_witness :
    eval defaultOptions 1 false (.lit (.bool false)) [] = .ok (.bool false, [])
    ∧ truthy (.bool false) = false
    ∧ eval defaultOptions 2 false
        (.binary "&&" (.lit (.bool false)) (.member (.lit (.obj [])) (.name "__proto__") false)) []
        = .ok (.bool false, []) :=
  ⟨rfl, rfl,
    binary_short_circuit.1 defaultOptions false 1 (.lit (.bool false))
      (.member (.lit (.obj [])) (.name "__proto__") false) [] [] (.bool false) rfl rfl⟩

/-- Claim C8: a CallExpression whose callee is an optional MemberExpression
resolving to a nullish value does not fail: the resolved function is
replaced by the callable `() => undefined` (rather than the call node
short-circuiting), so the argument expressions are still evaluated — their
effects and errors occur — and the call yields absence.  Concretely,
`o?.f(x++)` on `{o:{}, x:5}` yields absence and leaves `x=6`. -/
theorem optional_call_still_evaluates_args :
    (∀ (opts : Options) (m : Bool) (fuel : Nat) (o : Expr) (pk : PKey) (args : Elems)
        (ctx c1 : Ctx) (objV fv : Value) (key : String),
      evaluateMember (eval opts fuel m) opts o pk true ctx = .ok ((objV, fv, key), c1) →
      isNullish fv = true →
      (∀ (vals : List Value) (c2 : Ctx),
        evalArray (eval opts fuel m) args c1 = .ok (vals, c2) →
        eval opts (fuel + 1) m (.call (.member o pk true) args) ctx = .ok (.undefined, c2))
      ∧ (∀ msg : String,
        evalArray (eval opts fuel m) args c1 = .error msg →
        eval opts (fuel + 1) m (.call (.member o pk true) args) ctx = .error msg))
    ∧ (∀ m : Bool,
        eval defaultOptions 3 m
          (.call (.member (.ident "o") (.name "f") true) [(false, .update true false "x")])
          [("o", .obj []), ("x", .num 5)]
          = .ok (.undefined, [("o", .obj []), ("x", .num 6)])) := by
  constructor
  · intro opts m fuel o pk args ctx c1 objV fv key hmem hnull
    have hval : validateFnAndCall fv true (nodeFunctionName (.member o pk true))
        = .ok FnId.returnUndefined := by
      cases fv <;> simp_all [isNullish, validateFnAndCall, truthy]
    constructor
    · intro vals c2 hargs
      rw [eval_call_step]
      simp only [evalCallExpression, evalCall, hmem, exbind_ok, hval, hargs,
        pure_eq_ok, exbind_error, applyFn]
    · intro msg hargs
      rw [eval_call_step]
      simp only [evalCallExpression, evalCall, hmem, exbind_ok, hval, hargs,
        pure_eq_ok, exbind_error, applyFn]
  · intro m
    cases m <;> rfl

/-- Witness for C8: the general clause applied to `o?.f(x++)` on
`{o:{}, x:5}` — the member resolves to absence, the argument still runs
(incrementing `x`), and the call yields absence. -/
theorem optional_call_still_evaluates_args_witness :
    evaluateMember (eval defaultOptions 2 false) defaultOptions (.ident "o") (.name "f") true
        [("o", .obj []), ("x", .num 5)]
      = .ok ((.obj [], .undefined, "f"), [("o", .obj []), ("x", .num 5)])
    ∧ isNullish .undefined = true
    ∧ evalArray (eval defaultOptions 2 false) [(false, .update true false "x")]
        [("o", .obj []), ("x", .num 5)]
      = .ok ([.num 5], [("o", .obj []), ("x", .num 6)])
    ∧ eval defaultOptions 3 false
        (.call (.member (.ident "o") (.name "f") true) [(false, .update true false "x")])
        [("o", .obj []), ("x", .num 5)]
      = .ok (.undefined, [("o", .obj []), ("x", .num 6)]) :=
  ⟨rfl, rfl, rfl,
    ((optional_call_still_evaluates_args.1 defaultOptions false 2 (.ident "o") (.name "f")
        [(false, .update true false "x")] [("o", .obj []), ("x", .num 5)]
        [("o", .obj []), ("x", .num 5)] (.obj []) .undefined "f" rfl rfl).1
      [.num 5] [("o", .obj []), ("x", .num 6)] rfl)⟩

/-- Claim C6: dispatch tries the conditional evaluators registered for the
node's kind in registration order and uses the first whose predicate
returns true on (node, context); it falls back to the fixed table entry
only when no predicate matches; and `addConditionalEvaluator` appends to
the kind's ordered list without touching earlier registrations or other
kinds. -/
theorem conditional_evaluator_dispatch :
    (∀ {N C R : Type} (condReg : CondRegistry N C R) (table : String → Option (N → C → R))
        (typeOf : N → String) (serialize : N → String) (node : N) (ctx : C)
        (pre : List (CondEval N C R)) (ce : CondEval N C R) (post : List (CondEval N C R)),
      condReg (typeOf node) = pre ++ ce :: post →
      (∀ c ∈ pre, c.predicate node ctx = false) →
      ce.predicate node ctx = true →
      dispatchEval condReg table typeOf serialize node ctx = .ok (ce.evaluator node ctx))
    ∧ (∀ {N C R : Type} (condReg : CondRegistry N C R) (table : String → Option (N → C → R))
        (typeOf : N → String) (serialize : N → String) (node : N) (ctx : C) (f : N → C → R),
      (∀ c ∈ condReg (typeOf node), c.predicate node ctx = false) →
      table (typeOf node) = some f →
      dispatchEval condReg table typeOf serialize node ctx = .ok (f node ctx))
    ∧ (∀ {N C R : Type} (reg : CondRegistry N C R) (ty : String) (p : N → C → Bool)
        (ev : N → C → R),
      addConditionalEvaluator reg ty p ev ty = reg ty ++ [⟨p, ev⟩]
      ∧ ∀ t, t ≠ ty → addConditionalEvaluator reg ty p ev t = reg t) := by
  refine ⟨?_, ?_, ?_⟩
  · intro N C R condReg table typeOf serialize node ctx pre ce post hlist hpre hce
    unfold dispatchEval
    rw [hlist, List.find?_append]
    have h1 : pre.find? (fun c => c.predicate node ctx) = none := by
      rw [List.find?_eq_none]
      intro x hx
      simp [hpre x hx]
    rw [h1]
    rw [@List.find?_cons_of_pos _ (fun c => c.predicate node ctx) ce _ hce]
    rfl
  · intro N C R condReg table typeOf serialize node ctx f hall htab
    unfold dispatchEval
    have h1 : (condReg (typeOf node)).find? (fun c => c.predicate node ctx) = none := by
      rw [List.find?_eq_none]
      intro x hx
      simp [hall x hx]
    rw [h1, htab]
  · intro N C R reg ty p ev
    constructor
    · unfold addConditionalEvaluator
      simp
    · intro t ht
      unfold addConditionalEvaluator
      simp [ht]

/-- Witness for C6: a registry with two conditional evaluators for kind
`X`; at node `5` the first predicate (`n = 0`) fails and the second
(always true) fires, so dispatch returns the second evaluator's result. -/
theorem conditional_evaluator_dispatch_witness :
    ((fun t => if t = "X" then
        [(⟨fun n _ => decide (n = 0), fun _ _ => 7⟩ : CondEval Nat Nat Nat),
         ⟨fun _ _ => true, fun n _ => n + 1⟩] else []) "X"
      = [(⟨fun n _ => decide (n = 0), fun _ _ => 7⟩ : CondEval Nat Nat Nat)]
        ++ (⟨fun _ _ => true, fun n _ => n + 1⟩ : CondEval Nat Nat Nat) :: [])
    ∧ dispatchEval
        (fun t => if t = "X" then
          [(⟨fun n _ => decide (n = 0), fun _ _ => 7⟩ : CondEval Nat Nat Nat),
           ⟨fun _ _ => true, fun n _ => n + 1⟩] else [])
        (fun _ => none) (fun _ => "X") (fun _ => "node") 5 0 = .ok 6 :=
  ⟨rfl,
    conditional_evaluator_dispatch.1
      (fun t => if t = "X" then
        [⟨fun n _ => decide (n = 0), fun _ _ => 7⟩, ⟨fun _ _ => true, fun n _ => n + 1⟩] else [])
      (fun _ => none) (fun _ => "X") (fun _ => "node") 5 0
      [⟨fun n _ => decide (n = 0), fun _ _ => 7⟩] ⟨fun _ _ => true, fun n _ => n + 1⟩ []
      rfl (by intro c hc; simp at hc; subst hc; rfl) rfl⟩

/-- Claim C9: a node whose kind has no table entry and no matching
conditional evaluator fails with the Unknown-Node-Kind error carrying the
node's serialized form — dispatch never substitutes any other
semantics. -/
theorem unknown_node_kind_error :
    ∀ {N C R : Type} (condReg : CondRegistry N C R) (table : String → Option (N → C → R))
        (typeOf : N → String) (serialize : N → String) (node : N) (ctx : C),
      (∀ c ∈ condReg (typeOf node), c.predicate node ctx = false) →
      table (typeOf node) = none →
      dispatchEval condReg table typeOf serialize node ctx
        = .error ("unknown node type: " ++ serialize node) := by
  intro N C R condReg table typeOf serialize node ctx hall htab
  unfold dispatchEval
  have h1 : (condReg (typeOf node)).find? (fun c => c.predicate node ctx) = none := by
    rw [List.find?_eq_none]
    intro x hx
    simp [hall x hx]
  rw [h1, htab]

/-- Witness for C9: an empty registry and empty table produce the
Unknown-Node-Kind error with the serialized node in the message. -/
theorem unknown_node_kind_error_witness :
    dispatchEval (fun _ => ([] : List (CondEval Nat Nat Nat))) (fun _ => none)
        (fun _ => "Mystery") (fun _ => "serializedNode") 5 0
      = .error ("unknown node type: " ++ "serializedNode") :=
  unknown_node_kind_error (fun _ => []) (fun _ => none) (fun _ => "Mystery")
    (fun _ => "serializedNode") 5 0 (fun c hc => absurd hc (List.not_mem_nil c)) rfl

end JseEval
